import Mathlib

/-!
Verification of the PlayOn re-queue utility (`playon_requeue.py`).

The definitions below are a shallow embedding of the source: SQLite rows of
`RecordQueueItems` become a Lean structure, the SQL produced by `build_where`
is embedded both as the literal query text (`buildWhereText`) and as its
semantics over a row (`matchesWhere`), `compute_insert_ranks` and
`requeue_items` become pure functions over a list of rows.  Machine floats
(the `Rank` column and the `0.001` offsets) are modelled as exact rationals;
text columns are Lean strings, compared byte-lexicographically as SQLite
compares TEXT values.  Interactive input, the backup call and a mid-transaction
`sqlite3.Error` are modelled as explicit parameters (`confirm`, `backupOk`,
`failAt`).
-/

namespace Requeue

/-- ASCII lowercasing of a character, as both SQLite's `lower()` and Python's
`str.lower()` behave on ASCII text (the only titles the script compares). -/
def asciiLowerChar (c : Char) : Char :=
  if 'A' ≤ c ∧ c ≤ 'Z' then Char.ofNat (c.toNat + 32) else c

/-- ASCII lowercasing of a string. -/
def asciiLower (s : String) : String := String.mk (s.data.map asciiLowerChar)

/-- Lexicographic order on character lists; on ASCII data this is exactly the
byte order SQLite uses to compare TEXT values (`memcmp`). -/
def lexLe : List Char → List Char → Bool
  | [], _ => true
  | _ :: _, [] => false
  | a :: as, b :: bs => if a < b then true else if b < a then false else lexLe as bs

/-- String comparison used for the `Updated >= ?` filter and the
`ORDER BY Updated DESC` sort: SQLite TEXT comparison. -/
def strLe (a b : String) : Bool := lexLe a.data b.data

/-- Gregorian leap-year test, as Python's `calendar`/`datetime` use. -/
def isLeap (y : ℕ) : Bool := (y % 4 == 0 && y % 100 != 0) || (y % 400 == 0)

/-- Length of month `m` of year `y` (months are 1-based; out-of-range months
never arise on validated dates). -/
def daysInMonth (y m : ℕ) : ℕ :=
  match m with
  | 2 => if isLeap y then 29 else 28
  | 4 | 6 | 9 | 11 => 30
  | _ => 31

/-- Days in year `y` strictly before month `m`. -/
def daysBeforeMonth (y : ℕ) : ℕ → ℕ
  | 0 => 0
  | 1 => 0
  | m + 2 => daysBeforeMonth y (m + 1) + daysInMonth y (m + 1)

/-- Number of leap years in `1..y`. -/
def leapsBefore (y : ℕ) : ℕ := y / 4 - y / 100 + y / 400

/-- Days strictly before January 1 of year `y`, counting from 0001-01-01. -/
def daysBeforeYear (y : ℕ) : ℕ := 365 * (y - 1) + leapsBefore (y - 1)

/-- A proleptic-Gregorian calendar date, as Python's `datetime.date`. -/
structure Date where
  year : ℕ
  month : ℕ
  day : ℕ
deriving DecidableEq

/-- Python's `date.toordinal`: 0001-01-01 is day 1. -/
def Date.toOrdinal (d : Date) : ℕ :=
  daysBeforeYear d.year + daysBeforeMonth d.year d.month + d.day

/-- A well-formed calendar date. -/
def Date.Ok (d : Date) : Prop :=
  1 ≤ d.year ∧ 1 ≤ d.month ∧ d.month ≤ 12 ∧ 1 ≤ d.day ∧ d.day ≤ daysInMonth d.year d.month

instance (d : Date) : Decidable d.Ok := by
  unfold Date.Ok; exact inferInstance

/-- The previous calendar day (`datetime - timedelta(days=1)` on the date part). -/
def predDate (d : Date) : Date :=
  if 2 ≤ d.day then ⟨d.year, d.month, d.day - 1⟩
  else if 2 ≤ d.month then ⟨d.year, d.month - 1, daysInMonth d.year (d.month - 1)⟩
  else ⟨d.year - 1, 12, 31⟩

/-- Subtraction of `k` days (`datetime - timedelta(days=k)` on the date part). -/
def subDays : ℕ → Date → Date
  | 0, d => d
  | k + 1, d => subDays k (predDate d)

/-- Python's `date.weekday()`: Monday is 0.  0001-01-01 (ordinal 1) was a
Monday in the proleptic Gregorian calendar. -/
def pyWeekday (d : Date) : ℕ := (d.toOrdinal + 6) % 7

/-- An aware UTC instant as the script uses it: a date plus a time of day. -/
structure DateTime where
  date : Date
  hour : ℕ
  minute : ℕ
  second : ℕ
deriving DecidableEq

/-- Decimal digit character. -/
def digitChar (n : ℕ) : Char := Char.ofNat (48 + n)

/-- Two-digit zero-padded decimal rendering (the `%m %d %H %M %S` fields). -/
def pad2 (n : ℕ) : String := String.mk [digitChar (n / 10 % 10), digitChar (n % 10)]

/-- Four-digit zero-padded decimal rendering (the `%Y` field for the years in use). -/
def pad4 (n : ℕ) : String :=
  String.mk [digitChar (n / 1000 % 10), digitChar (n / 100 % 10),
             digitChar (n / 10 % 10), digitChar (n % 10)]

/-- `strftime("%Y-%m-%d %H:%M:%S")`: the text format of the database's
`Updated`/`Queued` columns, used by `build_where` to render the `--since`
bound (line 284 of the source). -/
def fmtDb (t : DateTime) : String :=
  pad4 t.date.year ++ "-" ++ pad2 t.date.month ++ "-" ++ pad2 t.date.day ++ " " ++
    pad2 t.hour ++ ":" ++ pad2 t.minute ++ ":" ++ pad2 t.second

/-- `strftime("%Y%m%d-%H%M%S")`: the format `requeue_items` actually writes
into `Updated` and `Queued` (line 493 of the source). -/
def fmtWrite (t : DateTime) : String :=
  pad4 t.date.year ++ pad2 t.date.month ++ pad2 t.date.day ++ "-" ++
    pad2 t.hour ++ pad2 t.minute ++ pad2 t.second

/-- Value of a decimal digit character, if it is one. -/
def digitVal (c : Char) : Option ℕ :=
  if '0' ≤ c ∧ c ≤ '9' then some (c.toNat - 48) else none

/-- CPython `strptime` month field `%m`, regex `1[0-2]|0[1-9]|[1-9]`. -/
def parseMonthMDY (s : List Char) : Option ℕ :=
  match s with
  | [c] => match digitVal c with
    | some v => if 1 ≤ v then some v else none
    | none => none
  | [c1, c2] =>
    match digitVal c1, digitVal c2 with
    | some v1, some v2 =>
      if v1 = 1 ∧ v2 ≤ 2 then some (10 + v2)
      else if v1 = 0 ∧ 1 ≤ v2 then some v2
      else none
    | _, _ => none
  | _ => none

/-- CPython `strptime` day field `%d`, regex `3[01]|[12]\d|0[1-9]|[1-9]| [1-9]`. -/
def parseDayMDY (s : List Char) : Option ℕ :=
  match s with
  | [c] => match digitVal c with
    | some v => if 1 ≤ v then some v else none
    | none => none
  | [c1, c2] =>
    if c1 = ' ' then
      match digitVal c2 with
      | some v => if 1 ≤ v then some v else none
      | none => none
    else
      match digitVal c1, digitVal c2 with
      | some v1, some v2 =>
        if v1 = 3 ∧ v2 ≤ 1 then some (30 + v2)
        else if v1 = 1 ∨ v1 = 2 then some (10 * v1 + v2)
        else if v1 = 0 ∧ 1 ≤ v2 then some v2
        else none
      | _, _ => none
  | _ => none

/-- CPython `strptime` two-digit year field `%y`, regex `\d\d`. -/
def parseYearYY (s : List Char) : Option ℕ :=
  match s with
  | [c1, c2] =>
    match digitVal c1, digitVal c2 with
    | some v1, some v2 => some (10 * v1 + v2)
    | _, _ => none
  | _ => none

/-- Split a character list on `-`, as Python `str.split('-')` keeping empties. -/
def splitDash : List Char → List (List Char)
  | [] => [[]]
  | c :: cs =>
    let r := splitDash cs
    if c = '-' then [] :: r
    else
      match r with
      | [] => [[c]]
      | h :: t => (c :: h) :: t

/-- `datetime.strptime(token, "%m-%d-%y")`: since none of the field patterns
can match a `-`, the regex match is equivalent to splitting on `-` into
exactly three parts and matching each part whole.  `%y` years map to
2000-2068 / 1969-1999, and the `datetime` constructor then validates the day
against the month's length. -/
def strptimeMDY (s : String) : Option Date :=
  match splitDash s.data with
  | [ms, ds, ys] =>
    match parseMonthMDY ms, parseDayMDY ds, parseYearYY ys with
    | some m, some d, some yy =>
      let y := if yy ≤ 68 then 2000 + yy else 1900 + yy
      if d ≤ daysInMonth y m then some ⟨y, m, d⟩ else none
    | _, _, _ => none
  | _ => none

/-- `parse_since` (source lines 169-178): lowercase the token, resolve the
keywords (`this-week` also accepts `week`/`w`, `this-month` also accepts
`month`/`m`), otherwise try `MM-DD-YY`, otherwise raise. `None` stays `None`
(no lower bound). -/
def parseSince (token : Option String) (now : DateTime) : Except String (Option DateTime) :=
  match token with
  | none => .ok none
  | some tok0 =>
    let tok := asciiLower tok0
    if tok = "today" then .ok (some ⟨now.date, 0, 0, 0⟩)
    else if tok = "yesterday" then .ok (some ⟨predDate now.date, 0, 0, 0⟩)
    else if tok = "this-week" ∨ tok = "week" ∨ tok = "w" then
      .ok (some ⟨subDays (pyWeekday now.date) now.date, 0, 0, 0⟩)
    else if tok = "this-month" ∨ tok = "month" ∨ tok = "m" then
      .ok (some ⟨⟨now.date.year, now.date.month, 1⟩, 0, 0, 0⟩)
    else
      match strptimeMDY tok with
      | some d => .ok (some ⟨d, 0, 0, 0⟩)
      | none => .error ("Invalid --since value: " ++ tok)

/-- A row of `RecordQueueItems` (schema as created by the test harness:
ID, Name, SeriesTitle, Season, EpisodeNumber, Status, Rank, Updated, Error,
Queued).  `Rank` is REAL; it is modelled as an exact rational. -/
structure Row where
  id : ℕ
  name : Option String
  seriesTitle : Option String
  season : Option Int
  episodeNumber : Option Int
  status : Int
  rank : ℚ
  updated : String
  error : Option String
  queued : String
deriving DecidableEq

/-- The `--position` choice. -/
inductive Position
  | beginning
  | atEnd
  | after
deriving DecidableEq

/-- The filter/behaviour options `requeue_items` consumes (`args.title` is
`[]` for an absent `--title`, as Python treats `None` and `[]` the same way
in `build_where`'s truthiness test). -/
structure Args where
  title : List String
  includePartial : Bool
  moviesOnly : Bool
  sinceDt : Option DateTime
  position : Position
  afterTitle : Option String
  limit : Option Int
  dryRun : Bool
  noBackup : Bool
deriving DecidableEq

/-- Rows with `Status IN (0,1)`: the live queue. -/
def liveRows (db : List Row) : List Row :=
  db.filter (fun r => decide (r.status = 0 ∨ r.status = 1))

/-- `SELECT COALESCE(MIN(Rank), 0) FROM RecordQueueItems WHERE Status IN (0,1)`. -/
def minLiveRank (db : List Row) : ℚ :=
  match (liveRows db).map Row.rank with
  | [] => 0
  | x :: xs => xs.foldl min x

/-- `SELECT COALESCE(MAX(Rank), 0) FROM RecordQueueItems WHERE Status IN (0,1)`. -/
def maxLiveRank (db : List Row) : ℚ :=
  match (liveRows db).map Row.rank with
  | [] => 0
  | x :: xs => xs.foldl max x

/-- Live rows matching `(SeriesTitle = ? OR Name = ?)` for the anchor title.
SQLite `=` on TEXT is case-sensitive (BINARY collation), and `NULL = x` is
never true, so a `None` anchor or a NULL column never matches. -/
def anchorMatches (db : List Row) (t : String) : List Row :=
  (liveRows db).filter (fun r => decide (r.seriesTitle = some t ∨ r.name = some t))

/-- `SELECT Rank ... ORDER BY Rank DESC LIMIT 1` over the anchor matches:
the greatest matching rank, if any match exists. -/
def anchorRank (db : List Row) (afterTitle : Option String) : Option ℚ :=
  match afterTitle with
  | none => none
  | some t =>
    match (anchorMatches db t).map Row.rank with
    | [] => none
    | x :: xs => some (xs.foldl max x)

/-- `compute_insert_ranks` (source lines 290-299).  `0.001` is the float
literal of the source, modelled as the exact rational `1/1000`. -/
def computeInsertRanks (db : List Row) (count : ℕ) (position : Position)
    (afterTitle : Option String) : Except String (List ℚ) :=
  match position with
  | .beginning => .ok ((List.range count).map (fun i : ℕ => minLiveRank db - (i : ℚ) - 1))
  | .atEnd => .ok ((List.range count).map (fun i : ℕ => maxLiveRank db + (i : ℚ) + 1))
  | .after =>
    match anchorRank db afterTitle with
    | some base => .ok ((List.range count).map (fun i : ℕ => base + ((i : ℚ) + 1) * (1 / 1000)))
    | none => .error ("Anchor title \x22" ++ afterTitle.getD "None" ++ "\x22 not found in current queue.")

/-- `status_codes` of `build_where`: `[4] + ([3] if args.include_partial else [])`. -/
def statusCodes (a : Args) : List Int :=
  [4] ++ (if a.includePartial then [3] else [])

/-- Semantics of the clause `Status IN (?,...)` over one row. -/
def statusClause (a : Args) (r : Row) : Bool :=
  (statusCodes a).contains r.status

/-- Semantics of the `--title` clause: a disjunction of
`(lower(SeriesTitle) = ? OR lower(Name) = ?)` per given title, with the
parameters lowercased by Python; SQLite's `lower(NULL)` is NULL and never
equals a string.  Trivially true when no `--title` was given (the clause is
then absent). -/
def titleClause (a : Args) (r : Row) : Bool :=
  a.title.isEmpty || a.title.any (fun t =>
    decide (r.seriesTitle.map asciiLower = some (asciiLower t))
      || decide (r.name.map asciiLower = some (asciiLower t)))

/-- Semantics of `Season IS NULL AND EpisodeNumber IS NULL`, present only
under `--movies-only`. -/
def moviesClause (a : Args) (r : Row) : Bool :=
  !a.moviesOnly || (r.season.isNone && r.episodeNumber.isNone)

/-- Semantics of `Updated >= ?` against the formatted `--since` bound
(SQLite TEXT comparison), present only when a bound was resolved. -/
def sinceClause (a : Args) (r : Row) : Bool :=
  match a.sinceDt with
  | none => true
  | some dt => strLe (fmtDb dt) r.updated

/-- Semantics over one row of the whole WHERE clause `build_where` generates:
the `AND` of its clauses. -/
def matchesWhere (a : Args) (r : Row) : Bool :=
  statusClause a r && titleClause a r && moviesClause a r && sinceClause a r

/-- A bound SQL parameter. -/
inductive SqlVal
  | int (v : Int)
  | text (s : String)
deriving DecidableEq

/-- The literal WHERE text `build_where` assembles: only `?` placeholders ever
stand where a filter value is used. -/
def buildWhereText (a : Args) : String :=
  let clauses :=
    ["Status IN (" ++ String.intercalate "," (List.replicate (statusCodes a).length "?") ++ ")"]
      ++ (if a.title.isEmpty then [] else
          ["(" ++ String.intercalate " OR "
              (a.title.map (fun _ => "(lower(SeriesTitle) = ? OR lower(Name) = ?)")) ++ ")"])
      ++ (if a.moviesOnly then ["Season IS NULL AND EpisodeNumber IS NULL"] else [])
      ++ (if a.sinceDt.isSome then ["Updated >= ?"] else [])
  if clauses.isEmpty then "1" else String.intercalate " AND " clauses

/-- The parameter list `build_where` binds, in order: the status codes, two
lowercased copies of each `--title`, and the formatted `--since` bound. -/
def buildWhereParams (a : Args) : List SqlVal :=
  (statusCodes a).map SqlVal.int
    ++ a.title.foldr (fun t acc => SqlVal.text (asciiLower t) :: SqlVal.text (asciiLower t) :: acc) []
    ++ (match a.sinceDt with
        | none => []
        | some dt => [SqlVal.text (fmtDb dt)])

/-- Insert a row into a list kept descending by `Updated`. -/
def insertDesc (r : Row) : List Row → List Row
  | [] => [r]
  | x :: xs => if strLe r.updated x.updated then x :: insertDesc r xs else r :: x :: xs

/-- `ORDER BY Updated DESC` of the candidate query (insertion sort; SQLite
promises no particular tie order). -/
def sortByUpdatedDesc : List Row → List Row
  | [] => []
  | r :: rs => insertDesc r (sortByUpdatedDesc rs)

/-- Python's `xs[:l]` for an `int` bound: non-negative bounds keep a prefix,
negative bounds drop `|l|` elements from the end. -/
def pySliceTo (l : Int) (xs : List Row) : List Row :=
  if 0 ≤ l then xs.take l.toNat else xs.take (xs.length - (-l).toNat)

/-- The candidate query of `requeue_items`: rows matching the WHERE clause,
ordered by `Updated` descending. -/
def candidatesOf (db : List Row) (args : Args) : List Row :=
  sortByUpdatedDesc (db.filter (matchesWhere args))

/-- The `--limit` truncation (source lines 451-453): applied only when
`args.limit` is truthy (present and nonzero) and the candidate count exceeds
it. -/
def limitedCandidates (db : List Row) (args : Args) : List Row :=
  let c := candidatesOf db args
  match args.limit with
  | none => c
  | some l => if l ≠ 0 ∧ (l : Int) < (c.length : Int) then pySliceTo l c else c

/-- One `UPDATE RecordQueueItems SET Status=0, Rank=?, Error=NULL, Queued=?,
Updated=? WHERE ID=?` applied to a row it selects. -/
def promoteRow (r : Row) (newRank : ℚ) (stamp : String) : Row :=
  { r with status := 0, rank := newRank, error := none, queued := stamp, updated := stamp }

/-- Effect of one UPDATE statement on the whole table. -/
def applyOne (stamp : String) (db : List Row) (p : ℕ × ℚ) : List Row :=
  db.map (fun r => if r.id = p.1 then promoteRow r p.2 stamp else r)

/-- The (id, new rank) pairs of `zip(to_promote, ranks)`. -/
def pairsOf (toPromote : List Row) (ranks : List ℚ) : List (ℕ × ℚ) :=
  (toPromote.zip ranks).map (fun q => (q.1.id, q.2))

/-- The UPDATE loop inside the transaction; `failAt = some i` injects a
`sqlite3.Error` at the `i`-th statement, as P8 of the spec considers. -/
def runTxn (stamp : String) (failAt : Option ℕ) :
    List Row → List (ℕ × ℚ) → ℕ → Except String (List Row)
  | db, [], _ => .ok db
  | db, p :: ps, i =>
    if failAt = some i then .error "database error"
    else runTxn stamp failAt (applyOne stamp db p) ps (i + 1)

/-- Externally visible milestones of the write path, in the order the source
reaches them: the affirmative confirmation, the completed backup, the
transaction issuing UPDATEs. -/
inductive Event
  | confirmed
  | backup
  | mutate
deriving DecidableEq

/-- Outcome of one `requeue_items` invocation: the table afterwards and the
milestones reached. -/
structure RequeueResult where
  db : List Row
  events : List Event
deriving DecidableEq

/-- `requeue_items` (source lines 428-507): query candidates ordered by
recency, apply the limit, stop on no matches, compute ranks (stop on
failure), stop on dry-run, prompt (EOF counts as "no"), require a
case-insensitive "yes", back up unless `--no-backup` (an exception there
propagates before any write), then update every selected row in one
transaction, rolling back wholly on any error. -/
def requeueItems (db : List Row) (args : Args) (confirm : Option String)
    (backupOk : Bool) (failAt : Option ℕ) (now : DateTime) : RequeueResult :=
  let toPromote := limitedCandidates db args
  if toPromote.isEmpty then ⟨db, []⟩
  else
    match computeInsertRanks db toPromote.length args.position args.afterTitle with
    | .error _ => ⟨db, []⟩
    | .ok ranks =>
      if args.dryRun then ⟨db, []⟩
      else
        let resp := confirm.getD "no"
        if asciiLower resp ≠ "yes" then ⟨db, []⟩
        else if !args.noBackup && !backupOk then ⟨db, [.confirmed]⟩
        else
          let stamp := fmtWrite now
          let pre := Event.confirmed :: (if args.noBackup then [] else [Event.backup])
          match runTxn stamp failAt db (pairsOf toPromote ranks) 0 with
          | .error _ => ⟨db, pre ++ [Event.mutate]⟩
          | .ok db2 => ⟨db2, pre ++ [Event.mutate]⟩

/-! ### Concrete instances used to exhibit the claims on explicit inputs -/

/-- A fixed UTC instant: 2024-03-15 (a Friday) 07:08:09. -/
def nowX : DateTime := ⟨⟨2024, 3, 15⟩, 7, 8, 9⟩

/-- A failed movie row. -/
def rowMovie : Row :=
  ⟨7, some "Old Movie", none, none, none, 4, -1,
    "2024-03-01 00:00:00", some "Recording failed", "2024-03-01 00:00:00"⟩

/-- A one-row table holding only the failed movie. -/
def dbOne : List Row := [rowMovie]

/-- No filters beyond the default failed status, insertion at the end,
no limit, not a dry run, backup skipped. -/
def argsEnd : Args := ⟨[], false, false, none, .atEnd, none, none, false, true⟩

/-- Two failed rows with distinct recency. -/
def rowFailA : Row :=
  ⟨1, some "A", none, none, none, 4, -1,
    "2024-01-02 00:00:00", some "Failed", "2024-01-02 00:00:00"⟩

/-- The older of the two failed rows. -/
def rowFailB : Row :=
  ⟨2, some "B", none, none, none, 4, -1,
    "2024-01-01 00:00:00", some "Failed", "2024-01-01 00:00:00"⟩

/-- A two-row table of failed items. -/
def dbTwo : List Row := [rowFailA, rowFailB]

/-- A live (queued) row titled "Anchor Show" with rank 2. -/
def rowLiveAnchor : Row :=
  ⟨3, none, some "Anchor Show", none, none, 0, 2,
    "2024-01-01 00:00:00", none, "2024-01-01 00:00:00"⟩

/-- A table with a live anchor row and a failed row. -/
def dbAnchor : List Row := [rowLiveAnchor, rowFailA]

/-- Requesting insertion after a title no live row carries. -/
def argsAfterGhost : Args := ⟨[], false, false, none, .after, some "Ghost", none, false, false⟩

/-- Three failed rows with strictly decreasing recency (listed unsorted). -/
def rowG1 : Row :=
  ⟨11, some "G1", none, none, none, 4, -1,
    "2024-02-03 00:00:00", some "Failed", "2024-02-03 00:00:00"⟩

/-- Second of the three rows by recency. -/
def rowG2 : Row :=
  ⟨12, some "G2", none, none, none, 4, -1,
    "2024-02-02 00:00:00", some "Failed", "2024-02-02 00:00:00"⟩

/-- Third of the three rows by recency. -/
def rowG3 : Row :=
  ⟨13, some "G3", none, none, none, 4, -1,
    "2024-02-01 00:00:00", some "Failed", "2024-02-01 00:00:00"⟩

/-- The three-row table, deliberately not in recency order. -/
def dbThree : List Row := [rowG2, rowG1, rowG3]

/-- Like `argsEnd` but with `--limit 1`. -/
def argsLimitOne : Args := ⟨[], false, false, none, .atEnd, none, some 1, false, true⟩

/-- A live row whose series title matches "Babylon 5" only up to letter case. -/
def rowLiveLower : Row :=
  ⟨21, none, some "babylon 5", none, none, 0, 5,
    "2024-01-01 00:00:00", none, "2024-01-01 00:00:00"⟩

/-- A table whose only live row differs from the anchor title in case alone. -/
def dbCase : List Row := [rowLiveLower]

/-! ### Helper lemmas: the string order -/

theorem lexLe_total : ∀ as bs, lexLe as bs = true ∨ lexLe bs as = true
  | [], _ => Or.inl rfl
  | _ :: _, [] => Or.inr rfl
  | a :: as, b :: bs => by
    by_cases h1 : a < b
    · left; simp [lexLe, h1]
    · by_cases h2 : b < a
      · right; simp [lexLe, h2]
      · rcases lexLe_total as bs with h | h
        · left; simp [lexLe, h1, h2, h]
        · right; simp [lexLe, h1, h2, h]

theorem lexLe_trans : ∀ as bs cs, lexLe as bs = true → lexLe bs cs = true → lexLe as cs = true
  | [], _, _, _, _ => rfl
  | _ :: _, [], _, h1, _ => by simp [lexLe] at h1
  | _ :: _, _ :: _, [], _, h2 => by simp [lexLe] at h2
  | a :: as, b :: bs, c :: cs, h1, h2 => by
    simp only [lexLe] at h1 h2 ⊢
    by_cases hab : a < b
    · by_cases hbc : b < c
      · simp [lt_trans hab hbc]
      · by_cases hcb : c < b
        · simp [hbc, hcb] at h2
        · have hbc2 : b = c := le_antisymm (le_of_not_lt hcb) (le_of_not_lt hbc)
          subst hbc2; simp [hab]
    · by_cases hba : b < a
      · simp [hab, hba] at h1
      · have hab2 : a = b := le_antisymm (le_of_not_lt hba) (le_of_not_lt hab)
        subst hab2
        simp only [lt_irrefl, if_false] at h1
        by_cases hac : a < c
        · simp [hac]
        · by_cases hca : c < a
          · simp [hac, hca] at h2
          · have hac2 : a = c := le_antisymm (le_of_not_lt hca) (le_of_not_lt hac)
            subst hac2
            simp only [lt_irrefl, if_false] at h2 ⊢
            exact lexLe_trans as bs cs h1 h2

theorem strLe_total (a b : String) : strLe a b = true ∨ strLe b a = true :=
  lexLe_total a.data b.data

theorem strLe_trans {a b c : String} (h1 : strLe a b = true) (h2 : strLe b c = true) :
    strLe a c = true :=
  lexLe_trans a.data b.data c.data h1 h2

/-! ### Helper lemmas: folded maxima and minima -/

theorem le_foldl_max : ∀ (xs : List ℚ) (a x : ℚ), x ≤ a ∨ x ∈ xs → x ≤ xs.foldl max a
  | [], _, _, h => h.resolve_right (by simp)
  | b :: bs, a, x, h => by
    simp only [List.foldl_cons]
    refine le_foldl_max bs (max a b) x ?_
    rcases h with h | h
    · exact Or.inl (le_trans h (le_max_left a b))
    · rcases List.mem_cons.mp h with h | h
      · exact Or.inl (h ▸ le_max_right a b)
      · exact Or.inr h

theorem foldl_max_mem : ∀ (xs : List ℚ) (a : ℚ), xs.foldl max a = a ∨ xs.foldl max a ∈ xs
  | [], _ => Or.inl rfl
  | b :: bs, a => by
    simp only [List.foldl_cons]
    rcases foldl_max_mem bs (max a b) with h | h
    · rcases max_choice a b with hm | hm
      · exact Or.inl (h.trans hm)
      · exact Or.inr (List.mem_cons.mpr (Or.inl (h.trans hm)))
    · exact Or.inr (List.mem_cons.mpr (Or.inr h))

theorem foldl_min_le : ∀ (xs : List ℚ) (a x : ℚ), a ≤ x ∨ x ∈ xs → xs.foldl min a ≤ x
  | [], _, _, h => h.resolve_right (by simp)
  | b :: bs, a, x, h => by
    simp only [List.foldl_cons]
    refine foldl_min_le bs (min a b) x ?_
    rcases h with h | h
    · exact Or.inl (le_trans (min_le_left a b) h)
    · rcases List.mem_cons.mp h with h | h
      · exact Or.inl (h ▸ min_le_right a b)
      · exact Or.inr h

theorem foldl_min_mem : ∀ (xs : List ℚ) (a : ℚ), xs.foldl min a = a ∨ xs.foldl min a ∈ xs
  | [], _ => Or.inl rfl
  | b :: bs, a => by
    simp only [List.foldl_cons]
    rcases foldl_min_mem bs (min a b) with h | h
    · rcases min_choice a b with hm | hm
      · exact Or.inl (h.trans hm)
      · exact Or.inr (List.mem_cons.mpr (Or.inl (h.trans hm)))
    · exact Or.inr (List.mem_cons.mpr (Or.inr h))

/-! ### Helper lemmas: the recency sort -/

theorem insertDesc_perm (r : Row) : ∀ l : List Row, List.Perm (insertDesc r l) (r :: l)
  | [] => List.Perm.refl _
  | x :: xs => by
    unfold insertDesc
    by_cases h : strLe r.updated x.updated = true
    · rw [if_pos h]
      exact ((insertDesc_perm r xs).cons x).trans (List.Perm.swap r x xs)
    · rw [if_neg h]

theorem sortByUpdatedDesc_perm : ∀ l : List Row, List.Perm (sortByUpdatedDesc l) l
  | [] => List.Perm.refl _
  | r :: rs =>
    (insertDesc_perm r (sortByUpdatedDesc rs)).trans ((sortByUpdatedDesc_perm rs).cons r)

theorem insertDesc_pairwise (r : Row) :
    ∀ l : List Row, List.Pairwise (fun a b => strLe b.updated a.updated = true) l →
      List.Pairwise (fun a b => strLe b.updated a.updated = true) (insertDesc r l)
  | [], _ => List.pairwise_singleton _ r
  | x :: xs, h => by
    obtain ⟨hx, hxs⟩ := List.pairwise_cons.mp h
    unfold insertDesc
    by_cases hc : strLe r.updated x.updated = true
    · rw [if_pos hc]
      refine List.pairwise_cons.mpr ⟨?_, insertDesc_pairwise r xs hxs⟩
      intro y hy
      rcases (by simpa using (insertDesc_perm r xs).mem_iff.mp hy : y = r ∨ y ∈ xs) with h | h
      · exact h ▸ hc
      · exact hx y h
    · rw [if_neg hc]
      have hxr : strLe x.updated r.updated = true := (strLe_total _ _).resolve_left hc
      refine List.pairwise_cons.mpr ⟨?_, h⟩
      intro y hy
      rcases List.mem_cons.mp hy with h | h
      · exact h ▸ hxr
      · exact strLe_trans (hx y h) hxr

theorem sortByUpdatedDesc_pairwise :
    ∀ l : List Row, List.Pairwise (fun a b => strLe b.updated a.updated = true) (sortByUpdatedDesc l)
  | [] => List.Pairwise.nil
  | r :: rs => insertDesc_pairwise r (sortByUpdatedDesc rs) (sortByUpdatedDesc_pairwise rs)

/-! ### Helper lemmas: the transaction loop -/

theorem runTxn_none (stamp : String) :
    ∀ (ps : List (ℕ × ℚ)) (db : List Row) (i : ℕ),
      runTxn stamp none db ps i = .ok (ps.foldl (applyOne stamp) db)
  | [], _, _ => rfl
  | p :: ps, db, i => by
    simp only [runTxn, List.foldl_cons, reduceCtorEq, if_false]
    exact runTxn_none stamp ps (applyOne stamp db p) (i + 1)

theorem runTxn_fail (stamp : String) (j : ℕ) :
    ∀ (ps : List (ℕ × ℚ)) (db : List Row) (i : ℕ), i ≤ j → j < i + ps.length →
      ∃ e, runTxn stamp (some j) db ps i = .error e
  | [], _, i, h1, h2 => absurd h2 (by simp; omega)
  | p :: ps, db, i, h1, h2 => by
    by_cases hji : j = i
    · exact ⟨"database error", by simp [runTxn, hji]⟩
    · obtain ⟨e, he⟩ := runTxn_fail stamp j ps (applyOne stamp db p) (i + 1)
        (by omega) (by simp at h2 ⊢; omega)
      exact ⟨e, by simp only [runTxn, Option.some.injEq]; rw [if_neg hji]; exact he⟩

theorem promoteRow_id (r : Row) (q : ℚ) (s : String) : (promoteRow r q s).id = r.id := rfl

theorem find?_fst_eq :
    ∀ (l : List (ℕ × ℚ)), (l.map Prod.fst).Nodup → ∀ x ∈ l,
      l.find? (fun p => p.1 == x.1) = some x
  | [], _, x, hx => absurd hx (by simp)
  | y :: ys, hn, x, hx => by
    rcases List.mem_cons.mp hx with h | h
    · subst h
      exact List.find?_cons_of_pos ys (by simp)
    · have hne : ¬ (y.1 == x.1) = true := by
        simp only [beq_iff_eq]
        intro he
        have : x.1 ∈ ys.map Prod.fst := List.mem_map.mpr ⟨x, h, rfl⟩
        rw [← he] at this
        exact (List.nodup_cons.mp (by simpa using hn)).1 this
      rw [List.find?_cons_of_neg ys hne]
      exact find?_fst_eq ys (List.nodup_cons.mp (by simpa using hn)).2 x h

theorem foldl_applyOne_eq_map (stamp : String) :
    ∀ (pairs : List (ℕ × ℚ)) (db : List Row), (pairs.map Prod.fst).Nodup →
      pairs.foldl (applyOne stamp) db
        = db.map (fun r =>
            match pairs.find? (fun p => p.1 == r.id) with
            | some p => promoteRow r p.2 stamp
            | none => r)
  | [], db, _ => by simp [List.find?]
  | p :: ps, db, hn => by
    have hn' : (ps.map Prod.fst).Nodup := (List.nodup_cons.mp (by simpa using hn)).2
    have hp : p.1 ∉ ps.map Prod.fst := (List.nodup_cons.mp (by simpa using hn)).1
    simp only [List.foldl_cons]
    rw [foldl_applyOne_eq_map stamp ps (applyOne stamp db p) hn']
    unfold applyOne
    rw [List.map_map]
    refine List.map_congr_left ?_
    intro r _
    by_cases hr : r.id = p.1
    · simp only [Function.comp, if_pos hr]
      have hfind : ps.find? (fun q => q.1 == (promoteRow r p.2 stamp).id) = none := by
        rw [List.find?_eq_none]
        intro x hx
        simp only [promoteRow_id, beq_iff_eq, hr]
        intro he
        exact hp (he ▸ List.mem_map.mpr ⟨x, hx, rfl⟩)
      rw [hfind, List.find?_cons_of_pos _ (by simp [hr])]
    · simp only [Function.comp, if_neg hr]
      rw [List.find?_cons_of_neg _ (by simp only [beq_iff_eq]; exact fun h => hr h.symm)]

/-! ### Helper lemmas: the calendar -/

theorem daysInMonth_pos (y m : ℕ) : 1 ≤ daysInMonth y m := by
  unfold daysInMonth
  split <;> (try split) <;> omega

theorem daysBeforeMonth_succ (y m : ℕ) (h : 1 ≤ m) :
    daysBeforeMonth y (m + 1) = daysBeforeMonth y m + daysInMonth y m := by
  obtain ⟨k, rfl⟩ : ∃ k, m = k + 1 := ⟨m - 1, by omega⟩
  rfl

theorem daysBeforeMonth_12 (y : ℕ) :
    daysBeforeMonth y 12 = 334 + (if isLeap y then 1 else 0) := by
  cases h : isLeap y <;> simp [daysBeforeMonth, daysInMonth, h]

theorem isLeap_iff (y : ℕ) :
    isLeap y = true ↔ ((y % 4 = 0 ∧ ¬ y % 100 = 0) ∨ y % 400 = 0) := by
  simp [isLeap]

theorem daysBeforeYear_succ (y : ℕ) (h : 1 ≤ y) :
    daysBeforeYear (y + 1) = daysBeforeYear y + 365 + (if isLeap y then 1 else 0) := by
  unfold daysBeforeYear leapsBefore
  simp only [Nat.add_sub_cancel]
  by_cases hl : isLeap y = true
  · rw [if_pos hl]
    rw [isLeap_iff] at hl
    omega
  · rw [if_neg hl]
    rw [isLeap_iff] at hl
    push_neg at hl
    omega

theorem predDate_ord (d : Date) (hok : d.Ok) (h2 : 2 ≤ d.toOrdinal) :
    (predDate d).Ok ∧ (predDate d).toOrdinal + 1 = d.toOrdinal := by
  obtain ⟨y, m, dd⟩ := d
  simp only [Date.Ok] at hok
  obtain ⟨hy, hm1, hm2, hd1, hd2⟩ := hok
  simp only [Date.toOrdinal] at h2 ⊢
  unfold predDate
  by_cases hdd : 2 ≤ dd
  · simp only [if_pos hdd, Date.Ok, Date.toOrdinal]
    exact ⟨⟨hy, hm1, hm2, by omega, by omega⟩, by omega⟩
  · have hdd1 : dd = 1 := by omega
    subst hdd1
    simp only [if_neg hdd]
    by_cases hmm : 2 ≤ m
    · simp only [if_pos hmm, Date.Ok, Date.toOrdinal]
      have hs := daysBeforeMonth_succ y (m - 1) (by omega)
      have hm2' : m - 1 + 1 = m := by omega
      rw [hm2'] at hs
      exact ⟨⟨hy, by omega, by omega, daysInMonth_pos y (m - 1), le_refl _⟩, by omega⟩
    · have hm1' : m = 1 := by omega
      subst hm1'
      simp only [if_neg hmm, Date.Ok, Date.toOrdinal]
      have hy2 : 2 ≤ y := by
        by_contra hcon
        have hy1 : y = 1 := by omega
        subst hy1
        simp [daysBeforeYear, daysBeforeMonth, leapsBefore] at h2
      have h12 := daysBeforeMonth_12 (y - 1)
      have hys := daysBeforeYear_succ (y - 1) (by omega)
      have hyy : y - 1 + 1 = y := by omega
      rw [hyy] at hys
      have hdim : daysInMonth (y - 1) 12 = 31 := rfl
      have hdbm1 : daysBeforeMonth y 1 = 0 := rfl
      refine ⟨⟨by omega, by omega, by omega, by omega, by rw [hdim]⟩, ?_⟩
      rw [hdbm1]
      by_cases hl : isLeap (y - 1) = true <;>
        [rw [if_pos hl] at h12 hys; rw [if_neg hl] at h12 hys] <;> omega

theorem subDays_ord (k : ℕ) :
    ∀ d : Date, d.Ok → k + 1 ≤ d.toOrdinal →
      (subDays k d).Ok ∧ (subDays k d).toOrdinal + k = d.toOrdinal := by
  induction k with
  | zero => exact fun d h _ => ⟨h, rfl⟩
  | succ n ih =>
    intro d hok hord
    have hp := predDate_ord d hok (by omega)
    have hrec := ih (predDate d) hp.1 (by omega)
    refine ⟨hrec.1, ?_⟩
    show (subDays n (predDate d)).toOrdinal + (n + 1) = d.toOrdinal
    omega

/-! ### Facts about the live-rank bounds -/

theorem maxLiveRank_ge (db : List Row) : ∀ r ∈ liveRows db, r.rank ≤ maxLiveRank db := by
  intro r hr
  unfold maxLiveRank
  cases hm : (liveRows db).map Row.rank with
  | nil =>
    have : r.rank ∈ (liveRows db).map Row.rank := List.mem_map_of_mem Row.rank hr
    rw [hm] at this
    simp at this
  | cons x xs =>
    have hmem : r.rank ∈ x :: xs := hm ▸ List.mem_map_of_mem Row.rank hr
    rcases List.mem_cons.mp hmem with h | h
    · exact le_foldl_max xs x r.rank (Or.inl (le_of_eq h))
    · exact le_foldl_max xs x r.rank (Or.inr h)

theorem maxLiveRank_mem (db : List Row) (h : liveRows db ≠ []) :
    ∃ r ∈ liveRows db, r.rank = maxLiveRank db := by
  unfold maxLiveRank
  cases hm : (liveRows db).map Row.rank with
  | nil => exact absurd (List.map_eq_nil_iff.mp hm) h
  | cons x xs =>
    rcases foldl_max_mem xs x with h1 | h1
    · have hx : x ∈ (liveRows db).map Row.rank := by rw [hm]; exact List.mem_cons_self x xs
      obtain ⟨r, hr, hrx⟩ := List.mem_map.mp hx
      exact ⟨r, hr, by rw [hrx]; exact h1.symm⟩
    · have hx : xs.foldl max x ∈ (liveRows db).map Row.rank := by
        rw [hm]; exact List.mem_cons.mpr (Or.inr h1)
      obtain ⟨r, hr, hrx⟩ := List.mem_map.mp hx
      exact ⟨r, hr, hrx⟩

theorem minLiveRank_le (db : List Row) : ∀ r ∈ liveRows db, minLiveRank db ≤ r.rank := by
  intro r hr
  unfold minLiveRank
  cases hm : (liveRows db).map Row.rank with
  | nil =>
    have : r.rank ∈ (liveRows db).map Row.rank := List.mem_map_of_mem Row.rank hr
    rw [hm] at this
    simp at this
  | cons x xs =>
    have hmem : r.rank ∈ x :: xs := hm ▸ List.mem_map_of_mem Row.rank hr
    rcases List.mem_cons.mp hmem with h | h
    · exact foldl_min_le xs x r.rank (Or.inl (le_of_eq h.symm))
    · exact foldl_min_le xs x r.rank (Or.inr h)

theorem minLiveRank_mem (db : List Row) (h : liveRows db ≠ []) :
    ∃ r ∈ liveRows db, r.rank = minLiveRank db := by
  unfold minLiveRank
  cases hm : (liveRows db).map Row.rank with
  | nil => exact absurd (List.map_eq_nil_iff.mp hm) h
  | cons x xs =>
    rcases foldl_min_mem xs x with h1 | h1
    · have hx : x ∈ (liveRows db).map Row.rank := by rw [hm]; exact List.mem_cons_self x xs
      obtain ⟨r, hr, hrx⟩ := List.mem_map.mp hx
      exact ⟨r, hr, by rw [hrx]; exact h1.symm⟩
    · have hx : xs.foldl min x ∈ (liveRows db).map Row.rank := by
        rw [hm]; exact List.mem_cons.mpr (Or.inr h1)
      obtain ⟨r, hr, hrx⟩ := List.mem_map.mp hx
      exact ⟨r, hr, hrx⟩

/-! ### The claims -/

/-- C5: for every count `k ≥ 0`, rank allocation at position `end` returns the
sequence `M+1, M+2, ..., M+k` where `M` is the maximum rank among live rows
(status Queued(0) or Active(1)), or `0` when no live rows exist; every
returned rank is strictly greater than every pre-existing live rank. -/
theorem c5_end_ranks (db : List Row) (k : ℕ) (a : Option String) :
    computeInsertRanks db k .atEnd a
        = .ok ((List.range k).map (fun i : ℕ => maxLiveRank db + (i : ℚ) + 1))
      ∧ (liveRows db = [] → maxLiveRank db = 0)
      ∧ (liveRows db ≠ [] → ∃ r ∈ liveRows db, r.rank = maxLiveRank db)
      ∧ (∀ r ∈ liveRows db, r.rank ≤ maxLiveRank db)
      ∧ (∀ i, i < k → ((List.range k).map (fun j : ℕ => maxLiveRank db + (j : ℚ) + 1))[i]?
            = some (maxLiveRank db + ((i : ℚ) + 1)))
      ∧ (∀ i, i < k → ∀ r ∈ liveRows db, r.rank < maxLiveRank db + (i : ℚ) + 1) := by
  refine ⟨rfl, ?_, maxLiveRank_mem db, maxLiveRank_ge db, ?_, ?_⟩
  · intro h
    simp [maxLiveRank, h]
  · intro i hi
    rw [List.getElem?_map, List.getElem?_range hi]
    simp only [Option.map_some']
    rw [add_assoc]
  · intro i hi r hr
    have h1 := maxLiveRank_ge db r hr
    have h2 : (0 : ℚ) ≤ (i : ℚ) := Nat.cast_nonneg i
    linarith

/-- C6: for every count `k ≥ 0`, rank allocation at position `beginning`
returns the sequence `m-1, m-2, ..., m-k` where `m` is the minimum rank among
live rows (status Queued(0) or Active(1)), or `0` when no live rows exist;
every returned rank is strictly less than every pre-existing live rank, and
the `i`-th candidate (1-based) receives rank `m-i`, so the last candidate
receives the numerically smallest rank. -/
theorem c6_beginning_ranks (db : List Row) (k : ℕ) (a : Option String) :
    computeInsertRanks db k .beginning a
        = .ok ((List.range k).map (fun i : ℕ => minLiveRank db - (i : ℚ) - 1))
      ∧ (liveRows db = [] → minLiveRank db = 0)
      ∧ (liveRows db ≠ [] → ∃ r ∈ liveRows db, r.rank = minLiveRank db)
      ∧ (∀ r ∈ liveRows db, minLiveRank db ≤ r.rank)
      ∧ (∀ i, i < k → ((List.range k).map (fun j : ℕ => minLiveRank db - (j : ℚ) - 1))[i]?
            = some (minLiveRank db - ((i : ℚ) + 1)))
      ∧ (∀ i, i < k → ∀ r ∈ liveRows db, minLiveRank db - (i : ℚ) - 1 < r.rank)
      ∧ (∀ i j, i < j → j < k →
            minLiveRank db - (j : ℚ) - 1 < minLiveRank db - (i : ℚ) - 1) := by
  refine ⟨rfl, ?_, minLiveRank_mem db, minLiveRank_le db, ?_, ?_, ?_⟩
  · intro h
    simp [minLiveRank, h]
  · intro i hi
    rw [List.getElem?_map, List.getElem?_range hi]
    simp only [Option.map_some']
    rw [sub_sub]
  · intro i hi r hr
    have h1 := minLiveRank_le db r hr
    have h2 : (0 : ℚ) ≤ (i : ℚ) := Nat.cast_nonneg i
    linarith
  · intro i j hij hjk
    have : (i : ℚ) < (j : ℚ) := by exact_mod_cast hij
    linarith

/-- C4: for every count `k ≥ 1` with position `after`: if no live row has
series-title or name equal to the anchor title, rank allocation fails
(AnchorNotFound) and the database is left unmodified by the whole
`requeue_items` run; otherwise, with `base` the rank of the matching live row
having the highest rank among matches, the allocated ranks are
`base + 0.001, base + 0.002, ..., base + 0.001*k` in candidate order. -/
theorem c4_after_anchor (db : List Row) (k : ℕ) (t : String) (hk : 1 ≤ k) :
    ((∀ r ∈ liveRows db, r.seriesTitle ≠ some t ∧ r.name ≠ some t) →
        (∃ e, computeInsertRanks db k .after (some t) = .error e)
      ∧ (∀ args confirm bOk fAt now, args.position = .after → args.afterTitle = some t →
          requeueItems db args confirm bOk fAt now = ⟨db, []⟩))
    ∧ ((∃ r ∈ liveRows db, r.seriesTitle = some t ∨ r.name = some t) →
        ∃ base,
          computeInsertRanks db k .after (some t)
              = .ok ((List.range k).map (fun i : ℕ => base + ((i : ℚ) + 1) * (1 / 1000)))
          ∧ (∃ rb ∈ liveRows db, (rb.seriesTitle = some t ∨ rb.name = some t) ∧ rb.rank = base)
          ∧ (∀ r ∈ liveRows db, (r.seriesTitle = some t ∨ r.name = some t) → r.rank ≤ base)) := by
  have hk' : 0 < k := hk
  constructor
  · intro h
    have hfil : anchorMatches db t = [] := by
      unfold anchorMatches
      rw [List.filter_eq_nil_iff]
      intro r hr
      simp only [decide_eq_true_eq]
      exact fun hc => hc.elim (fun hh => (h r hr).1 hh) (fun hh => (h r hr).2 hh)
    have hanch : anchorRank db (some t) = none := by
      simp only [anchorRank, hfil, List.map_nil]
    constructor
    · simp only [computeInsertRanks, hanch]
      exact ⟨_, rfl⟩
    · intro args confirm bOk fAt now hpos hat
      simp only [requeueItems]
      by_cases hemp : (limitedCandidates db args).isEmpty = true
      · rw [if_pos hemp]
      · rw [if_neg hemp, hpos, hat]
        simp only [computeInsertRanks, hanch]
  · intro ⟨r0, hr0, hm0⟩
    have hr0m : r0 ∈ anchorMatches db t :=
      List.mem_filter.mpr ⟨hr0, by simp only [decide_eq_true_eq]; exact hm0⟩
    rcases hl : (anchorMatches db t).map Row.rank with _ | ⟨x, xs⟩
    · have : r0.rank ∈ (anchorMatches db t).map Row.rank := List.mem_map_of_mem Row.rank hr0m
      rw [hl] at this
      simp at this
    · refine ⟨xs.foldl max x, ?_, ?_, ?_⟩
      · simp only [computeInsertRanks, anchorRank]
        rw [hl]
      · have hx : xs.foldl max x = x ∨ xs.foldl max x ∈ xs := foldl_max_mem xs x
        have hmem : xs.foldl max x ∈ (anchorMatches db t).map Row.rank := by
          rw [hl]
          rcases hx with h | h
          · exact List.mem_cons.mpr (Or.inl h)
          · exact List.mem_cons.mpr (Or.inr h)
        obtain ⟨rb, hrb, hrbe⟩ := List.mem_map.mp hmem
        have hrb2 := List.mem_filter.mp hrb
        exact ⟨rb, hrb2.1, by simpa using hrb2.2, hrbe⟩
      · intro r hr hmr
        have hrm : r ∈ anchorMatches db t :=
          List.mem_filter.mpr ⟨hr, by simp only [decide_eq_true_eq]; exact hmr⟩
        have : r.rank ∈ x :: xs := hl ▸ List.mem_map_of_mem Row.rank hrm
        rcases List.mem_cons.mp this with h | h
        · exact le_foldl_max xs x r.rank (Or.inl (le_of_eq h))
        · exact le_foldl_max xs x r.rank (Or.inr h)

theorem statusClause_iff (a : Args) (r : Row) :
    statusClause a r = true ↔ (r.status = 4 ∨ (a.includePartial = true ∧ r.status = 3)) := by
  unfold statusClause statusCodes
  cases a.includePartial <;> simp [List.contains]

theorem titleClause_iff (a : Args) (r : Row) :
    titleClause a r = true ↔
      (a.title ≠ [] → ∃ t ∈ a.title,
        (∃ s, r.seriesTitle = some s ∧ asciiLower s = asciiLower t)
          ∨ (∃ s, r.name = some s ∧ asciiLower s = asciiLower t)) := by
  unfold titleClause
  cases ht : a.title <;> simp [Option.map_eq_some']

theorem moviesClause_iff (a : Args) (r : Row) :
    moviesClause a r = true ↔
      (a.moviesOnly = true → r.season = none ∧ r.episodeNumber = none) := by
  unfold moviesClause
  cases a.moviesOnly <;> simp [Option.isNone_iff_eq_none]

theorem sinceClause_iff (a : Args) (r : Row) :
    sinceClause a r = true ↔
      (∀ dt, a.sinceDt = some dt → strLe (fmtDb dt) r.updated = true) := by
  unfold sinceClause
  cases hs : a.sinceDt <;> simp

/-- C3: a row is selected by the generated WHERE clause iff its status is
Failed(4), or Partial(3) when `--include-partial` is set; and, when at least
one title is given, its series-title or name equals one of the given titles
case-insensitively; and, when `--movies-only` is set, both its season and
episode are NULL; and, when a `--since` bound is given, its `Updated` is at
least that bound.  Moreover the generated query text depends only on the
shape of the filter configuration (flags and title count), never on the
user-supplied values themselves, which travel only in the parameter list. -/
theorem c3_filter_predicate :
    (∀ (a : Args) (r : Row),
        matchesWhere a r = true ↔
          ((r.status = 4 ∨ (a.includePartial = true ∧ r.status = 3))
            ∧ (a.title ≠ [] → ∃ t ∈ a.title,
                (∃ s, r.seriesTitle = some s ∧ asciiLower s = asciiLower t)
                  ∨ (∃ s, r.name = some s ∧ asciiLower s = asciiLower t))
            ∧ (a.moviesOnly = true → r.season = none ∧ r.episodeNumber = none)
            ∧ (∀ dt, a.sinceDt = some dt → strLe (fmtDb dt) r.updated = true)))
      ∧ (∀ a a2 : Args, a.includePartial = a2.includePartial →
          a.title.length = a2.title.length → a.moviesOnly = a2.moviesOnly →
          a.sinceDt.isSome = a2.sinceDt.isSome →
          buildWhereText a = buildWhereText a2) := by
  constructor
  · intro a r
    unfold matchesWhere
    simp only [Bool.and_eq_true]
    rw [statusClause_iff, titleClause_iff, moviesClause_iff, sinceClause_iff]
    tauto
  · intro a a2 h1 h2 h3 h4
    have he : a.title.isEmpty = a2.title.isEmpty := by
      cases ht : a.title <;> cases ht2 : a2.title <;> simp_all
    unfold buildWhereText statusCodes
    rw [h1, h3, h4, he]
    simp only [List.map_const']
    rw [h2]

/-- C7 (amended): token resolution of `--since`, on the lowercased token:
`today` maps to the start of the current UTC day, `yesterday` to the start of
the previous day, `this-week` (and its aliases `week`, `w`) to the most
recent Monday 00:00:00, `this-month` (and its aliases `month`, `m`) to the
first of the current month, a parseable `MM-DD-YY` token to midnight on that
date; every other token fails with the invalid-date error; an absent token
yields no lower bound. -/
theorem c7_parse_since_amended (now : DateTime) (tok : String)
    (hok : now.date.Ok) (hw : pyWeekday now.date + 1 ≤ now.date.toOrdinal) :
    parseSince none now = .ok none
    ∧ (asciiLower tok = "today" →
        parseSince (some tok) now = .ok (some ⟨now.date, 0, 0, 0⟩))
    ∧ (asciiLower tok = "yesterday" →
        parseSince (some tok) now = .ok (some ⟨predDate now.date, 0, 0, 0⟩))
    ∧ (asciiLower tok ∈ ["this-week", "week", "w"] →
        ∃ d, parseSince (some tok) now = .ok (some ⟨d, 0, 0, 0⟩)
          ∧ pyWeekday d = 0 ∧ d.toOrdinal ≤ now.date.toOrdinal
          ∧ now.date.toOrdinal < d.toOrdinal + 7)
    ∧ (asciiLower tok ∈ ["this-month", "month", "m"] →
        parseSince (some tok) now = .ok (some ⟨⟨now.date.year, now.date.month, 1⟩, 0, 0, 0⟩))
    ∧ (∀ d, asciiLower tok ∉
          ["today", "yesterday", "this-week", "week", "w", "this-month", "month", "m"] →
        strptimeMDY (asciiLower tok) = some d →
        parseSince (some tok) now = .ok (some ⟨d, 0, 0, 0⟩))
    ∧ (asciiLower tok ∉
          ["today", "yesterday", "this-week", "week", "w", "this-month", "month", "m"] →
        strptimeMDY (asciiLower tok) = none →
        parseSince (some tok) now = .error ("Invalid --since value: " ++ asciiLower tok)) := by
  have hmon : ∀ hcase : asciiLower tok = "this-week" ∨ asciiLower tok = "week"
      ∨ asciiLower tok = "w",
      ∃ d, parseSince (some tok) now = .ok (some ⟨d, 0, 0, 0⟩)
        ∧ pyWeekday d = 0 ∧ d.toOrdinal ≤ now.date.toOrdinal
        ∧ now.date.toOrdinal < d.toOrdinal + 7 := by
    intro hcase
    refine ⟨subDays (pyWeekday now.date) now.date, ?_, ?_, ?_, ?_⟩
    · simp only [parseSince]
      rcases hcase with h | h | h <;> rw [h] <;> simp
    · have hs := subDays_ord (pyWeekday now.date) now.date hok hw
      have hww : pyWeekday now.date = (now.date.toOrdinal + 6) % 7 := rfl
      have hgg : pyWeekday (subDays (pyWeekday now.date) now.date)
          = ((subDays (pyWeekday now.date) now.date).toOrdinal + 6) % 7 := rfl
      rw [hgg]
      omega
    · have hs := subDays_ord (pyWeekday now.date) now.date hok hw
      omega
    · have hs := subDays_ord (pyWeekday now.date) now.date hok hw
      have hww : pyWeekday now.date = (now.date.toOrdinal + 6) % 7 := rfl
      omega
  refine ⟨rfl, ?_, ?_, ?_, ?_, ?_, ?_⟩
  · intro h
    simp only [parseSince]
    rw [h]
    simp
  · intro h
    simp only [parseSince]
    rw [h]
    simp
  · intro h
    exact hmon (by simpa using h)
  · intro h
    rcases (by simpa using h : asciiLower tok = "this-month" ∨ asciiLower tok = "month"
        ∨ asciiLower tok = "m") with h | h | h <;>
      · simp only [parseSince]
        rw [h]
        simp
  · intro d hnot hstr
    simp only [List.mem_cons, List.not_mem_nil, or_false, not_or] at hnot
    obtain ⟨h1, h2, h3, h4, h5, h6, h7, h8⟩ := hnot
    simp only [parseSince]
    rw [if_neg h1, if_neg h2, if_neg (by tauto), if_neg (by tauto), hstr]
  · intro hnot hstr
    simp only [List.mem_cons, List.not_mem_nil, or_false, not_or] at hnot
    obtain ⟨h1, h2, h3, h4, h5, h6, h7, h8⟩ := hnot
    simp only [parseSince]
    rw [if_neg h1, if_neg h2, if_neg (by tauto), if_neg (by tauto), hstr]

/-- C7 counterexample: the token `w` is none of `today`, `yesterday`,
`this-week`, `this-month`, nor a parseable `MM-DD-YY` date, yet at
2024-03-15 (a Friday) `parse_since` maps it to Monday 2024-03-11 00:00:00
instead of failing with the invalid-date error. -/
theorem c7_alias_accepted :
    "w" ≠ "today" ∧ "w" ≠ "yesterday" ∧ "w" ≠ "this-week" ∧ "w" ≠ "this-month"
      ∧ strptimeMDY "w" = none
      ∧ parseSince (some "w") nowX = .ok (some ⟨⟨2024, 3, 11⟩, 0, 0, 0⟩) := by
  exact ⟨by decide, by decide, by decide, by decide, by decide, rfl⟩

/-- C10: anchor lookup for position `after` is case-sensitive, unlike the
case-insensitive title filter: `dbCase` holds a live row whose series title
equals "Babylon 5" up to letter case only, no live row matches the anchor
exactly, and rank allocation raises the anchor-not-found error rather than
using that row. -/
theorem c10_anchor_case_sensitive :
    (∃ r ∈ liveRows dbCase, r.seriesTitle.map asciiLower = some (asciiLower "Babylon 5"))
      ∧ (∀ r ∈ liveRows dbCase, r.seriesTitle ≠ some "Babylon 5" ∧ r.name ≠ some "Babylon 5")
      ∧ (∃ e, computeInsertRanks dbCase 1 .after (some "Babylon 5") = .error e) := by
  exact ⟨by decide, by decide, ⟨_, rfl⟩⟩

/-! ### Structural facts about `requeueItems` -/

theorem requeueItems_cases (db : List Row) (args : Args) (confirm : Option String)
    (bOk : Bool) (fAt : Option ℕ) (now : DateTime) :
    requeueItems db args confirm bOk fAt now = ⟨db, []⟩
    ∨ (asciiLower (confirm.getD "no") = "yes" ∧ args.noBackup = false ∧ bOk = false
        ∧ requeueItems db args confirm bOk fAt now = ⟨db, [.confirmed]⟩)
    ∨ (asciiLower (confirm.getD "no") = "yes" ∧ args.dryRun = false
        ∧ (args.noBackup = true ∨ bOk = true)
        ∧ ∃ db2, requeueItems db args confirm bOk fAt now
            = ⟨db2, Event.confirmed :: (if args.noBackup then [] else [Event.backup])
                ++ [Event.mutate]⟩) := by
  simp only [requeueItems]
  by_cases h1 : (limitedCandidates db args).isEmpty = true
  · rw [if_pos h1]
    exact Or.inl rfl
  · rw [if_neg h1]
    cases hcr : computeInsertRanks db (limitedCandidates db args).length
        args.position args.afterTitle with
    | error e => exact Or.inl rfl
    | ok ranks =>
      simp only []
      by_cases h2 : args.dryRun = true
      · rw [if_pos h2]
        exact Or.inl rfl
      · rw [if_neg h2]
        by_cases h3 : asciiLower (confirm.getD "no") ≠ "yes"
        · rw [if_pos h3]
          exact Or.inl rfl
        · rw [if_neg h3]
          have hconf : asciiLower (confirm.getD "no") = "yes" := not_not.mp h3
          by_cases h4 : (!args.noBackup && !bOk) = true
          · rw [if_pos h4]
            simp only [Bool.and_eq_true, Bool.not_eq_true'] at h4
            exact Or.inr (Or.inl ⟨hconf, h4.1, h4.2, rfl⟩)
          · rw [if_neg h4]
            simp only [Bool.and_eq_true, Bool.not_eq_true', not_and_or] at h4
            refine Or.inr (Or.inr ⟨hconf, by simpa using h2, ?_, ?_⟩)
            · rcases h4 with h | h
              · exact Or.inl (by simpa using h)
              · exact Or.inr (by simpa using h)
            · cases htx : runTxn (fmtWrite now) fAt db
                  (pairsOf (limitedCandidates db args) ranks) 0 with
              | error e => exact ⟨db, rfl⟩
              | ok db2 => exact ⟨db2, rfl⟩

theorem requeueItems_write (db : List Row) (args : Args) (confirm : Option String)
    (bOk : Bool) (fAt : Option ℕ) (now : DateTime) (ranks : List ℚ)
    (hdry : args.dryRun = false)
    (hconf : asciiLower (confirm.getD "no") = "yes")
    (hbk : args.noBackup = true ∨ bOk = true)
    (hne : (limitedCandidates db args).isEmpty = false)
    (hranks : computeInsertRanks db (limitedCandidates db args).length
        args.position args.afterTitle = .ok ranks) :
    requeueItems db args confirm bOk fAt now
      = match runTxn (fmtWrite now) fAt db (pairsOf (limitedCandidates db args) ranks) 0 with
        | .error _ => ⟨db, Event.confirmed :: (if args.noBackup then [] else [Event.backup])
            ++ [Event.mutate]⟩
        | .ok db2 => ⟨db2, Event.confirmed :: (if args.noBackup then [] else [Event.backup])
            ++ [Event.mutate]⟩ := by
  simp only [requeueItems]
  rw [if_neg (by simp [hne]), hranks, hdry]
  simp only [Bool.false_eq_true, if_false]
  rw [if_neg (fun hh => hh hconf)]
  have h4 : ¬ ((!args.noBackup && !bOk) = true) := by
    rcases hbk with h | h <;> simp [h]
  rw [if_neg h4]

theorem computeInsertRanks_length (db : List Row) (count : ℕ) (pos : Position)
    (at0 : Option String) (ranks : List ℚ)
    (h : computeInsertRanks db count pos at0 = .ok ranks) : ranks.length = count := by
  unfold computeInsertRanks at h
  cases pos with
  | beginning => simpa using congrArg (fun l => l.length) (Except.ok.inj h).symm
  | atEnd => simpa using congrArg (fun l => l.length) (Except.ok.inj h).symm
  | after =>
    cases ha : anchorRank db at0 with
    | none => rw [ha] at h; exact absurd h (by simp)
    | some base =>
      rw [ha] at h
      simpa using congrArg (fun l => l.length) (Except.ok.inj h).symm

theorem limitedCandidates_sublist (db : List Row) (args : Args) :
    List.Sublist (limitedCandidates db args) (candidatesOf db args) := by
  simp only [limitedCandidates]
  cases hlim : args.limit with
  | none => exact List.Sublist.refl _
  | some l =>
    simp only []
    by_cases hc : l ≠ 0 ∧ (l : Int) < ((candidatesOf db args).length : Int)
    · rw [if_pos hc]
      unfold pySliceTo
      by_cases hl : 0 ≤ l
      · rw [if_pos hl]
        exact List.take_sublist _ _
      · rw [if_neg hl]
        exact List.take_sublist _ _
    · rw [if_neg hc]

theorem candidatesOf_sub_db (db : List Row) (args : Args) :
    ∀ r ∈ candidatesOf db args, r ∈ db := by
  intro r hr
  have h1 := (sortByUpdatedDesc_perm (db.filter (matchesWhere args))).mem_iff.mp hr
  exact List.mem_of_mem_filter h1

theorem candidates_ids_nodup (db : List Row) (args : Args)
    (hnd : (db.map Row.id).Nodup) : ((candidatesOf db args).map Row.id).Nodup := by
  have h3 : List.Sublist ((db.filter (matchesWhere args)).map Row.id) (db.map Row.id) :=
    (List.filter_sublist db).map Row.id
  have h4 : ((db.filter (matchesWhere args)).map Row.id).Nodup := hnd.sublist h3
  exact ((sortByUpdatedDesc_perm (db.filter (matchesWhere args))).map Row.id).symm.nodup h4

/-- C8: on the non-dry-run path, any confirmation response other than a
case-insensitive "yes" (end-of-input is read as "no") leaves every row
unchanged and makes no backup; whenever the transaction issues UPDATEs, the
confirmation was affirmative and the milestone order is fixed — confirmation,
then backup (when enabled, and only if it succeeded), then mutation; a failed
backup stops the run before any write. -/
theorem c8_confirmation_gating (db : List Row) (args : Args) (confirm : Option String)
    (bOk : Bool) (fAt : Option ℕ) (now : DateTime) (hdry : args.dryRun = false) :
    (asciiLower (confirm.getD "no") ≠ "yes" →
        (requeueItems db args confirm bOk fAt now).db = db
        ∧ Event.backup ∉ (requeueItems db args confirm bOk fAt now).events
        ∧ Event.mutate ∉ (requeueItems db args confirm bOk fAt now).events)
    ∧ (Event.mutate ∈ (requeueItems db args confirm bOk fAt now).events →
        asciiLower (confirm.getD "no") = "yes"
        ∧ ((args.noBackup = true
              ∧ (requeueItems db args confirm bOk fAt now).events
                  = [Event.confirmed, Event.mutate])
            ∨ (args.noBackup = false ∧ bOk = true
              ∧ (requeueItems db args confirm bOk fAt now).events
                  = [Event.confirmed, Event.backup, Event.mutate])))
    ∧ (args.noBackup = false → bOk = false →
        Event.mutate ∉ (requeueItems db args confirm bOk fAt now).events
        ∧ (requeueItems db args confirm bOk fAt now).db = db) := by
  rcases requeueItems_cases db args confirm bOk fAt now with
    h | ⟨hc, hnb, hb, h⟩ | ⟨hc, hd, hbk, db2, h⟩
  · rw [h]
    exact ⟨fun _ => ⟨rfl, by simp, by simp⟩, fun hm => absurd hm (by simp),
      fun _ _ => ⟨by simp, rfl⟩⟩
  · rw [h]
    exact ⟨fun hne => absurd hc hne, fun hm => absurd hm (by simp),
      fun _ _ => ⟨by simp, rfl⟩⟩
  · rw [h]
    refine ⟨fun hne => absurd hc hne, fun _ => ⟨hc, ?_⟩, fun hf1 hf2 => ?_⟩
    · cases hnb : args.noBackup
      · rcases hbk with hbt | hbt
        · exact absurd (hnb ▸ hbt) (by simp)
        · exact Or.inr ⟨rfl, hbt, by simp [hnb]⟩
      · exact Or.inl ⟨rfl, by simp [hnb]⟩
    · rcases hbk with hbt | hbt
      · exact absurd (hf1 ▸ hbt) (by simp)
      · exact absurd (hf2 ▸ hbt) (by simp)

/-- C2: the write phase is all-or-nothing.  With the write path enabled
(non-dry-run, affirmative confirmation, backup skipped or succeeded) and a
rank plan of `(candidate, rank)` pairs: if an UPDATE fails at any index of
the plan, the resulting table is exactly the original (zero updates observed
after rollback); if no UPDATE fails, the resulting table is the whole plan
applied, all committed in the one transaction. -/
theorem c2_transaction_atomicity (db : List Row) (args : Args) (confirm : Option String)
    (bOk : Bool) (fAt : Option ℕ) (now : DateTime) (ranks : List ℚ)
    (hdry : args.dryRun = false)
    (hconf : asciiLower (confirm.getD "no") = "yes")
    (hbk : args.noBackup = true ∨ bOk = true)
    (hranks : computeInsertRanks db (limitedCandidates db args).length
        args.position args.afterTitle = .ok ranks) :
    ((∃ j, fAt = some j ∧ j < (pairsOf (limitedCandidates db args) ranks).length) →
        (requeueItems db args confirm bOk fAt now).db = db)
    ∧ (fAt = none →
        (requeueItems db args confirm bOk fAt now).db
          = (pairsOf (limitedCandidates db args) ranks).foldl (applyOne (fmtWrite now)) db) := by
  by_cases hne : (limitedCandidates db args).isEmpty = true
  · have hempty : limitedCandidates db args = [] := List.isEmpty_iff.mp hne
    have hdb : (requeueItems db args confirm bOk fAt now).db = db := by
      simp only [requeueItems]
      rw [if_pos hne]
    have hpairs : pairsOf (limitedCandidates db args) ranks = [] := by
      rw [hempty]
      rfl
    rw [hpairs]
    exact ⟨fun _ => hdb, fun _ => hdb⟩
  · rw [requeueItems_write db args confirm bOk fAt now ranks hdry hconf hbk
      (by simpa using hne) hranks]
    constructor
    · intro ⟨j, hj, hjlen⟩
      subst hj
      obtain ⟨e, he⟩ := runTxn_fail (fmtWrite now) j
        (pairsOf (limitedCandidates db args) ranks) db 0 (Nat.zero_le j) (by omega)
      rw [he]
    · intro hnone
      subst hnone
      rw [runTxn_none]

/-- C9: with a positive `--limit L` on the write path: the candidate list is
sorted by `Updated` descending; when more than `L` candidates match, exactly
the first `L` of that recency order form the promoted set; each selected
candidate appears in the final table promoted with its allocated rank, and
every row whose id was not selected — in particular every remaining
candidate — appears in the final table completely unchanged (original
status, rank, error and timestamps). -/
theorem c9_limit_truncation (db : List Row) (args : Args) (confirm : Option String)
    (bOk : Bool) (now : DateTime) (L : Int) (ranks : List ℚ)
    (hL : args.limit = some L) (hLpos : 0 < L)
    (hdry : args.dryRun = false)
    (hconf : asciiLower (confirm.getD "no") = "yes")
    (hbk : args.noBackup = true ∨ bOk = true)
    (hnd : (db.map Row.id).Nodup)
    (hranks : computeInsertRanks db (limitedCandidates db args).length
        args.position args.afterTitle = .ok ranks) :
    List.Pairwise (fun a b : Row => strLe b.updated a.updated = true) (candidatesOf db args)
    ∧ ((L : Int) < ((candidatesOf db args).length : Int) →
        limitedCandidates db args = (candidatesOf db args).take L.toNat)
    ∧ (((candidatesOf db args).length : Int) ≤ L →
        limitedCandidates db args = candidatesOf db args)
    ∧ (∀ q ∈ (limitedCandidates db args).zip ranks,
        promoteRow q.1 q.2 (fmtWrite now) ∈ (requeueItems db args confirm bOk none now).db)
    ∧ (∀ r ∈ candidatesOf db args, r ∉ limitedCandidates db args →
        r ∈ (requeueItems db args confirm bOk none now).db)
    ∧ (∀ r ∈ db, r.id ∉ (limitedCandidates db args).map Row.id →
        r ∈ (requeueItems db args confirm bOk none now).db) := by
  have hcnd : ((candidatesOf db args).map Row.id).Nodup := candidates_ids_nodup db args hnd
  have hsub := limitedCandidates_sublist db args
  have hlnd : ((limitedCandidates db args).map Row.id).Nodup :=
    hcnd.sublist (hsub.map Row.id)
  have hrl : ranks.length = (limitedCandidates db args).length :=
    computeInsertRanks_length db _ args.position args.afterTitle ranks hranks
  have hpm : (pairsOf (limitedCandidates db args) ranks).map Prod.fst
      = (limitedCandidates db args).map Row.id := by
    unfold pairsOf
    rw [List.map_map]
    have hz : ((limitedCandidates db args).zip ranks).map
          ((fun q : ℕ × ℚ => q.1) ∘ (fun q : Row × ℚ => (q.1.id, q.2)))
        = (((limitedCandidates db args).zip ranks).map Prod.fst).map Row.id := by
      rw [List.map_map]
      rfl
    rw [hz, List.map_fst_zip _ _ (le_of_eq hrl.symm)]
  have hpnd : ((pairsOf (limitedCandidates db args) ranks).map Prod.fst).Nodup := by
    rw [hpm]
    exact hlnd
  have key : (requeueItems db args confirm bOk none now).db
      = db.map (fun r =>
          match (pairsOf (limitedCandidates db args) ranks).find? (fun p => p.1 == r.id) with
          | some p => promoteRow r p.2 (fmtWrite now)
          | none => r) := by
    by_cases hne : (limitedCandidates db args).isEmpty = true
    · have hempty : limitedCandidates db args = [] := List.isEmpty_iff.mp hne
      have hpairs : pairsOf (limitedCandidates db args) ranks = [] := by
        rw [hempty]
        rfl
      rw [hpairs]
      simp only [requeueItems]
      rw [if_pos hne]
      simp [List.find?]
    · rw [requeueItems_write db args confirm bOk none now ranks hdry hconf hbk
        (by simpa using hne) hranks]
      rw [runTxn_none]
      exact foldl_applyOne_eq_map (fmtWrite now) _ db hpnd
  have hunchanged : ∀ r ∈ db, r.id ∉ (limitedCandidates db args).map Row.id →
      r ∈ (requeueItems db args confirm bOk none now).db := by
    intro r hr hid
    rw [key]
    have hfind : (pairsOf (limitedCandidates db args) ranks).find?
        (fun p => p.1 == r.id) = none := by
      rw [List.find?_eq_none]
      intro x hx
      simp only [beq_iff_eq]
      intro he
      have : x.1 ∈ (pairsOf (limitedCandidates db args) ranks).map Prod.fst :=
        List.mem_map.mpr ⟨x, hx, rfl⟩
      rw [hpm, he] at this
      exact hid this
    refine List.mem_map.mpr ⟨r, hr, ?_⟩
    rw [hfind]
  refine ⟨?_, ?_, ?_, ?_, ?_, hunchanged⟩
  · exact sortByUpdatedDesc_pairwise (db.filter (matchesWhere args))
  · intro hgt
    simp only [limitedCandidates, hL]
    rw [if_pos ⟨by omega, hgt⟩]
    unfold pySliceTo
    rw [if_pos (le_of_lt hLpos)]
  · intro hle
    simp only [limitedCandidates, hL]
    rw [if_neg ?_]
    intro ⟨h1, h2⟩
    omega
  · intro q hq
    obtain ⟨hq1, hq2⟩ := List.of_mem_zip hq
    have hq1db : q.1 ∈ db := candidatesOf_sub_db db args q.1 (hsub.subset hq1)
    have hqin : (q.1.id, q.2) ∈ pairsOf (limitedCandidates db args) ranks :=
      List.mem_map.mpr ⟨q, hq, rfl⟩
    have hfind := find?_fst_eq (pairsOf (limitedCandidates db args) ranks) hpnd
      (q.1.id, q.2) hqin
    rw [key]
    refine List.mem_map.mpr ⟨q.1, hq1db, ?_⟩
    rw [hfind]
  · intro r hr hnotin
    have hid : r.id ∉ (limitedCandidates db args).map Row.id := by
      intro hmem
      obtain ⟨r2, hr2, hr2e⟩ := List.mem_map.mp hmem
      have hr2c : r2 ∈ candidatesOf db args := hsub.subset hr2
      have : r2 = r := List.inj_on_of_nodup_map hcnd hr2c hr hr2e
      exact hnotin (this ▸ hr2)
    exact hunchanged r (candidatesOf_sub_db db args r hr) hid

/-- C1 (code bug exhibited): on the confirmed non-dry-run path the code does
set status to Queued(0), assign the allocated rank and clear the error, but
it stamps `Updated` and `Queued` with `strftime("%Y%m%d-%H%M%S")` — at
2024-03-15 07:08:09 UTC the promoted row receives the text
"20240315-070809", not the "2024-03-15 07:08:09" rendering of the database's
own format, the one `build_where` itself compares `Updated` against. -/
theorem c1_write_stamp_format :
    fmtWrite nowX = "20240315-070809"
      ∧ fmtDb nowX = "2024-03-15 07:08:09"
      ∧ fmtWrite nowX ≠ fmtDb nowX
      ∧ (requeueItems dbOne argsEnd (some "yes") true none nowX).db
          = [⟨7, some "Old Movie", none, none, none, 0, 1,
              "20240315-070809", none, "20240315-070809"⟩]
      ∧ (requeueItems dbOne argsEnd (some "yes") true none nowX).events
          = [Event.confirmed, Event.mutate] := by
  have h1 : limitedCandidates dbOne argsEnd = [rowMovie] := by decide
  have hlive : liveRows dbOne = [] := by decide
  have hmax : maxLiveRank dbOne = 0 := by
    unfold maxLiveRank
    rw [hlive]
    rfl
  have h2 : computeInsertRanks dbOne 1 .atEnd none = .ok [(1 : ℚ)] := by
    simp only [computeInsertRanks, hmax]
    norm_num [List.range_succ]
  have hreq := requeueItems_write dbOne argsEnd (some "yes") true none nowX [(1 : ℚ)]
    rfl (by decide) (Or.inl rfl) (by rw [h1]; rfl) (by rw [h1]; exact h2)
  rw [h1] at hreq
  refine ⟨by decide, by decide, by decide, ?_, ?_⟩
  · rw [hreq]
    decide
  · rw [hreq]
    decide

/-- C2 witness: on the two failed rows of `dbTwo`, a failure injected at the
first UPDATE of the two-row plan leaves both rows untouched, while a clean
run commits the whole plan. -/
theorem c2_atomicity_witness :
    (requeueItems dbTwo argsEnd (some "YES") true (some 0) nowX).db = dbTwo
    ∧ (requeueItems dbTwo argsEnd (some "YES") true none nowX).db
        = (pairsOf (limitedCandidates dbTwo argsEnd) [(1 : ℚ), 2]).foldl
            (applyOne (fmtWrite nowX)) dbTwo := by
  have h1 : limitedCandidates dbTwo argsEnd = [rowFailA, rowFailB] := by decide
  have hlive : liveRows dbTwo = [] := by decide
  have hmax : maxLiveRank dbTwo = 0 := by
    unfold maxLiveRank
    rw [hlive]
    rfl
  have h2 : computeInsertRanks dbTwo 2 .atEnd none = .ok [(1 : ℚ), 2] := by
    simp only [computeInsertRanks, hmax]
    norm_num [List.range_succ]
  have hranks : computeInsertRanks dbTwo (limitedCandidates dbTwo argsEnd).length
      argsEnd.position argsEnd.afterTitle = .ok [(1 : ℚ), 2] := by
    rw [h1]
    exact h2
  constructor
  · exact (c2_transaction_atomicity dbTwo argsEnd (some "YES") true (some 0) nowX
      [(1 : ℚ), 2] rfl (by decide) (Or.inl rfl) hranks).1 ⟨0, rfl, by rw [h1]; decide⟩
  · exact (c2_transaction_atomicity dbTwo argsEnd (some "YES") true none nowX
      [(1 : ℚ), 2] rfl (by decide) (Or.inl rfl) hranks).2 rfl

/-- C4 witness: with no live "Ghost" row, allocation after "Ghost" fails and
a full `requeue_items` run leaves `dbTwo` untouched with no side effect;
with the live "Anchor Show" row of `dbAnchor`, allocation after it succeeds
with fractional offsets above its rank. -/
theorem c4_after_anchor_witness :
    (∃ e, computeInsertRanks dbTwo 1 .after (some "Ghost") = .error e)
    ∧ requeueItems dbTwo argsAfterGhost (some "yes") true none nowX = ⟨dbTwo, []⟩
    ∧ (∃ base,
        computeInsertRanks dbAnchor 1 .after (some "Anchor Show")
            = .ok ((List.range 1).map (fun i : ℕ => base + ((i : ℚ) + 1) * (1 / 1000)))
        ∧ (∃ rb ∈ liveRows dbAnchor,
            (rb.seriesTitle = some "Anchor Show" ∨ rb.name = some "Anchor Show")
            ∧ rb.rank = base)
        ∧ (∀ r ∈ liveRows dbAnchor,
            (r.seriesTitle = some "Anchor Show" ∨ r.name = some "Anchor Show") →
            r.rank ≤ base)) := by
  have hmiss : ∀ r ∈ liveRows dbTwo, r.seriesTitle ≠ some "Ghost" ∧ r.name ≠ some "Ghost" := by
    decide
  have hhit : ∃ r ∈ liveRows dbAnchor,
      r.seriesTitle = some "Anchor Show" ∨ r.name = some "Anchor Show" := by decide
  exact ⟨((c4_after_anchor dbTwo 1 "Ghost" (le_refl 1)).1 hmiss).1,
    ((c4_after_anchor dbTwo 1 "Ghost" (le_refl 1)).1 hmiss).2
      argsAfterGhost (some "yes") true none nowX rfl rfl,
    (c4_after_anchor dbAnchor 1 "Anchor Show" (le_refl 1)).2 hhit⟩

/-- C7 witness: at the Friday instant `nowX`, `TODAY` resolves to that day's
start, `week` to the most recent Monday, `06-01-24` to 2024-06-01 midnight,
and `gibberish` fails with the invalid-date error. -/
theorem c7_parse_since_witness :
    parseSince (some "TODAY") nowX = .ok (some ⟨⟨2024, 3, 15⟩, 0, 0, 0⟩)
    ∧ (∃ d, parseSince (some "week") nowX = .ok (some ⟨d, 0, 0, 0⟩)
        ∧ pyWeekday d = 0 ∧ d.toOrdinal ≤ nowX.date.toOrdinal
        ∧ nowX.date.toOrdinal < d.toOrdinal + 7)
    ∧ parseSince (some "06-01-24") nowX = .ok (some ⟨⟨2024, 6, 1⟩, 0, 0, 0⟩)
    ∧ parseSince (some "gibberish") nowX = .error "Invalid --since value: gibberish" := by
  refine ⟨?_, ?_, ?_, ?_⟩
  · exact (c7_parse_since_amended nowX "TODAY" (by decide) (by decide)).2.1 (by decide)
  · exact (c7_parse_since_amended nowX "week" (by decide) (by decide)).2.2.2.1 (by decide)
  · exact (c7_parse_since_amended nowX "06-01-24" (by decide) (by decide)).2.2.2.2.2.1
      ⟨2024, 6, 1⟩ (by decide) (by decide)
  · exact (c7_parse_since_amended nowX "gibberish" (by decide) (by decide)).2.2.2.2.2.2
      (by decide) (by decide)

/-- C8 witness: declining the prompt with "nope" leaves the one-row table
unchanged, with neither a backup nor a mutation milestone. -/
theorem c8_confirmation_witness :
    (requeueItems dbOne argsEnd (some "nope") true none nowX).db = dbOne
    ∧ Event.backup ∉ (requeueItems dbOne argsEnd (some "nope") true none nowX).events
    ∧ Event.mutate ∉ (requeueItems dbOne argsEnd (some "nope") true none nowX).events :=
  (c8_confirmation_gating dbOne argsEnd (some "nope") true none nowX rfl).1 (by decide)

/-- C9 witness: of the three failed rows of `dbThree` with `--limit 1`, only
the most recently updated (`rowG1`) is promoted; `rowG2` and `rowG3` remain
in the table exactly as they were. -/
theorem c9_limit_witness :
    promoteRow rowG1 1 (fmtWrite nowX)
        ∈ (requeueItems dbThree argsLimitOne (some "yes") true none nowX).db
    ∧ rowG2 ∈ (requeueItems dbThree argsLimitOne (some "yes") true none nowX).db
    ∧ rowG3 ∈ (requeueItems dbThree argsLimitOne (some "yes") true none nowX).db := by
  have h1 : limitedCandidates dbThree argsLimitOne = [rowG1] := by decide
  have hlive : liveRows dbThree = [] := by decide
  have hmax : maxLiveRank dbThree = 0 := by
    unfold maxLiveRank
    rw [hlive]
    rfl
  have h2 : computeInsertRanks dbThree 1 .atEnd none = .ok [(1 : ℚ)] := by
    simp only [computeInsertRanks, hmax]
    norm_num [List.range_succ]
  have hranks : computeInsertRanks dbThree (limitedCandidates dbThree argsLimitOne).length
      argsLimitOne.position argsLimitOne.afterTitle = .ok [(1 : ℚ)] := by
    rw [h1]
    exact h2
  have h9 := c9_limit_truncation dbThree argsLimitOne (some "yes") true nowX 1 [(1 : ℚ)]
    rfl (by decide) rfl (by decide) (Or.inl rfl) (by decide) hranks
  refine ⟨?_, ?_, ?_⟩
  · exact h9.2.2.2.1 (rowG1, 1) (by rw [h1]; decide)
  · exact h9.2.2.2.2.1 rowG2 (by decide) (by rw [h1]; decide)
  · exact h9.2.2.2.2.1 rowG3 (by decide) (by rw [h1]; decide)

end Requeue
